import Mathlib

/-!
# irqd: a shallow embedding of `cpu.h` and `irqd.c`

C strings and byte buffers are lists of characters, the terminating NUL
being an explicit element of a buffer.  Machine integers are `Nat`/`Int`
with explicit reduction modulo `2^w`.  System calls act on an explicit
world (a file table plus the trace of calls made); what the kernel answers
where the program cannot know it (the value `write` returns, the result of
`fork`) is a parameter of the embedded function.
-/

namespace Irqd

/-! ## Characters, buffers and `snprintf` -/

/-- The NUL byte that terminates a C string. -/
def NUL : Char := Char.ofNat 0

/-- The newline character. -/
def NL : Char := Char.ofNat 10

/-- `PATH_MAX` of `<limits.h>` on Linux. -/
def PATH_MAX : Nat := 4096

/-- The C string held by a buffer: the bytes before the first NUL. -/
def cstr (buf : List Char) : List Char := buf.takeWhile (fun c => c != NUL)

/-- `snprintf(buf, size, ...)` where `out` is the complete formatted text:
the bytes stored at the start of `buf` (at most `size - 1` characters of
`out` and a NUL), and the return value, the length of the complete text. -/
def snprintf (size : Nat) (out : List Char) : List Char × Nat :=
  (if size = 0 then [] else out.take (size - 1) ++ [NUL], out.length)

/-- Conversion `%d` of an `int`. -/
def fmt_d (i : Int) : List Char := (toString i).toList

/-- Conversion `%u` of an `unsigned`. -/
def fmt_u (n : Nat) : List Char := (toString (n % 2 ^ 32)).toList

/-- Conversion `%" PRIx64 "` of a `uint64_t`: lower-case hexadecimal, no
prefix, no leading zeros. -/
def fmt_x64 (mask : Nat) : List Char := Nat.toDigits 16 (mask % 2 ^ 64)

/-! ## `cpu.h`: softnet counters -/

/-- `struct softnet_stat` of `struct cpu_info`; every field is an
`unsigned`, a value below `2^32`. -/
structure softnet_stat where
  total : Nat
  dropped : Nat
  time_squeeze : Nat
  cpu_collision : Nat
deriving DecidableEq, Repr

/-- Index `OLD` of `ci_ss`. -/
def OLD : Fin 2 := 0

/-- Index `NEW` of `ci_ss`. -/
def NEW : Fin 2 := 1

/-- The part of `struct cpu_info` that `CPU_SS_DIFF` reads, with the scalar
fields beside it. -/
structure cpu_info where
  ci_num : Nat
  ci_num_queues : Nat
  ci_si_load : Nat
  ci_ss : Fin 2 → softnet_stat

/-- `CPU_SS_DIFF(ci, var)`: `(ci)->ci_ss[NEW].var - (ci)->ci_ss[OLD].var`, a
subtraction of two `unsigned`, hence modulo `2^32`. -/
def CPU_SS_DIFF (ci : cpu_info) (var : softnet_stat → Nat) : Nat :=
  (var (ci.ci_ss NEW) + 2 ^ 32 - var (ci.ci_ss OLD) % 2 ^ 32) % 2 ^ 32

/-- A `cpu_info` whose two `total` counters are `old` and `new`. -/
def ci_of_totals (old new : Nat) : cpu_info :=
  { ci_num := 0, ci_num_queues := 0, ci_si_load := 0,
    ci_ss := fun i => if i = OLD then ⟨old, 0, 0, 0⟩ else ⟨new, 0, 0, 0⟩ }

/-! ## The world: files and system calls -/

/-- A file: its content and whether it can be opened for writing. -/
structure File where
  content : List Char
  writable : Bool
deriving DecidableEq, Repr

/-- The file table: path and file, the first entry of a path counts. -/
abbrev FS := List (List Char × File)

/-- The file at `path`, if there is one. -/
def FS.find (fs : FS) (path : List Char) : Option File :=
  match fs with
  | [] => none
  | (p, f) :: rest => if p = path then some f else FS.find rest path

/-- Replace the file at `path`. -/
def FS.store (fs : FS) (path : List Char) (f : File) : FS :=
  match fs with
  | [] => [(path, f)]
  | (p, g) :: rest => if p = path then (p, f) :: rest else (p, g) :: FS.store rest path f

/-- A system call as the kernel sees it. -/
inductive Syscall where
  | sys_open (path : List Char) (creat : Bool)
  | sys_write (path : List Char) (buf : List Char) (count : Nat)
  | sys_unlink (path : List Char)
deriving DecidableEq, Repr

/-- The state outside the process: the files and the calls made so far,
the latest first. -/
structure World where
  fs : FS
  trace : List Syscall
deriving DecidableEq, Repr

/-- How a call ends: it returns a value, the process is aborted inside it,
or the process exits inside it with a status. -/
inductive Outcome (α : Type) where
  | ret (v : α)
  | abort
  | exit (status : Int)
deriving DecidableEq, Repr

/-- Storing `data` at offset 0 of a file, without truncation. -/
def overwrite (old data : List Char) : List Char := data ++ old.drop data.length

/-- `open(path, O_WRONLY | O_CLOEXEC)`: succeeds on an existing writable
file; the descriptor is modelled by the path. -/
def open_wronly (w : World) (path : List Char) : Option (List Char) × World :=
  let w1 : World := { w with trace := Syscall.sys_open path false :: w.trace }
  match w.fs.find path with
  | some f => if f.writable then (some path, w1) else (none, w1)
  | none => (none, w1)

/-- `write(fd, buf, count)` answering `nwritten`: the call is recorded with
the bytes of `buf` inside the array, and the first `nwritten` bytes reach
the file. -/
def sys_write (w : World) (fd : List Char) (buf : List Char) (count : Nat)
    (nwritten : Int) : World :=
  let data := (buf.take count).take nwritten.toNat
  let fs1 := match w.fs.find fd with
    | some f => if data = [] then w.fs else w.fs.store fd { f with content := overwrite f.content data }
    | none => w.fs
  { fs := fs1, trace := Syscall.sys_write fd (buf.take count) count :: w.trace }

/-- The write calls of a trace, oldest first. -/
def writes_of (t : List Syscall) : List Syscall :=
  (t.filter (fun c => match c with
    | Syscall.sys_write _ _ _ => true
    | _ => false)).reverse

/-- The paths opened in a trace, oldest first. -/
def opens_of (t : List Syscall) : List (List Char) :=
  (t.filterMap (fun c => match c with
    | Syscall.sys_open p _ => some p
    | _ => none)).reverse

/-! ## `irqd.c`: globals -/

/-- The globals of `irqd.c`. -/
structure Globals where
  irqd_prefix : List Char
  no_daemon : Bool
  verbose : Int
deriving DecidableEq, Repr

/-- Modelled from the spec: the macro `BUG_ON` of `irqd.h`, which is not
among the sources; an invariant violation aborts the process immediately.
`BUG_ON cond k` aborts when `cond` holds and continues with `k` otherwise. -/
def BUG_ON {α : Type} (cond : Bool) (k : Outcome α) : Outcome α :=
  if cond then Outcome.abort else k

/-! ## `irqd.c`: `irq_set_affinity` -/

/-- The text `irq_set_affinity` formats into `path`. -/
def smp_affinity_path (irq : Int) : List Char :=
  cstr (snprintf PATH_MAX ("/proc/irq/".toList ++ fmt_d irq ++ "/smp_affinity".toList)).1

/-- `irq_set_affinity(irq, mask)`; `nwritten` is what `write` answers.
`buf` has 16 bytes, and `len` is the return value of `snprintf`, the length
of the complete text.  The message of `err` and the `close` leave the files
alone and are left out. -/
def irq_set_affinity (_g : Globals) (w : World) (nwritten : Int) (irq : Int) (mask : Nat) :
    Outcome Int × World :=
  let path := smp_affinity_path irq
  match open_wronly w path with
  | (none, w1) => (Outcome.ret (-1), w1)
  | (some fd, w1) =>
    let r := snprintf 16 (fmt_x64 mask ++ [NL])
    let buf := r.1
    let len := r.2
    let w2 := sys_write w1 fd buf len nwritten
    (BUG_ON (nwritten != (len : Int)) (Outcome.ret 0), w2)

/-! ## `irqd.c`: `xstrncpy` and `id_path` -/

/-- Storing `bytes` at the start of a buffer. -/
def store_at0 (buf bytes : List Char) : List Char := bytes ++ buf.drop bytes.length

/-- `strncpy(dst, src, n)`: exactly `n` bytes of `dst` are written, the
first `n` characters of the string in `src`, padded with NULs when the
string is shorter. -/
def strncpy (dst src : List Char) (n : Nat) : List Char :=
  store_at0 dst ((cstr src).take n ++ List.replicate (n - (cstr src).length) NUL)

/-- `xstrncpy(dst, src, n)`: `dst` is the address of the destination and
`mem` the bytes found there; `src` is the array the source pointer leads
to.  The result is the returned pointer with the bytes of the destination
afterwards, or `none` when an access falls outside an array (`n` above the
size of the destination, a source without NUL that is shorter than `n`, or
index `n - 1` for `n = 0`). -/
def xstrncpy (dst : Nat) (mem : List Char) (src : List Char) (n : Nat) :
    Option (Nat × List Char) :=
  if mem.length < n then none
  else if NUL ∉ src ∧ src.length < n then none
  else
    let m1 := strncpy mem src n
    if n = 0 then none
    else
      match m1[n - 1]? with
      | none => none
      | some c => if c != NUL then some (dst, m1.set (n - 1) NUL) else some (dst, m1)

/-- Modelled from the spec: the macro `OOM` of `irqd.h`, which is not among
the sources; an allocation failure aborts the process immediately. -/
def OOM {α : Type} : Outcome α := Outcome.abort

/-- `id_path(path)`: `malloc` is what `malloc(PATH_MAX)` answers, `none`
for a null pointer and otherwise the `PATH_MAX` bytes found in the fresh
block; `path` and `irqd_prefix` are the buffers the pointers lead to.  The
result is the content of the returned block. -/
def id_path (g : Globals) (malloc : Option (List Char)) (path : List Char) :
    Outcome (List Char) :=
  BUG_ON (path.head? != some '/')
    (match malloc with
     | some buf =>
       let b1 := store_at0 buf (snprintf PATH_MAX (cstr g.irqd_prefix ++ cstr path)).1
       Outcome.ret (b1.set (PATH_MAX - 1) NUL)
     | none => OOM)

/-! ## `getopt_long` as `check_opts` calls it -/

/-- `struct option` of `<getopt.h>`; `flag` is `NULL` in every entry of
`lopts`, so only the other three fields are kept. -/
structure option where
  name : List Char
  has_arg : Nat
  val : Int
deriving DecidableEq, Repr

/-- The scanning state of `getopt`: the elements of `argv` from `optind`
on, and the unread characters of the element being scanned. -/
structure getopt_data where
  rest : List (List Char)
  nextchar : List Char
deriving DecidableEq, Repr

/-- What one call of `getopt_long` yields: the return value, the value
stored through `longind` if any, and the new scanning state. -/
structure getopt_result where
  c : Int
  longind : Option Nat
  d : getopt_data
deriving DecidableEq, Repr

/-- The return value for an unrecognised option, the character `?`. -/
def QMARK : Int := 63

/-- An element of `argv` that is not an option: it does not start with `-`,
or it is `-` alone. -/
def nonoption (a : List Char) : Bool :=
  match a with
  | '-' :: _ :: _ => false
  | _ => true

/-- The first entry whose name is exactly `name`, with its index. -/
def find_exact (longopts : List option) (name : List Char) (i : Nat) : Option (Nat × option) :=
  match longopts with
  | [] => none
  | p :: ps => if p.name = name then some (i, p) else find_exact ps name (i + 1)

/-- The entries of which `name` is a prefix, with their indices. -/
def find_abbrev (longopts : List option) (name : List Char) (i : Nat) : List (Nat × option) :=
  match longopts with
  | [] => []
  | p :: ps =>
    if name.isPrefixOf p.name then (i, p) :: find_abbrev ps name (i + 1)
    else find_abbrev ps name (i + 1)

/-- A long option element, `text` being what follows `--`: the name runs up
to the first `=`; an exact match wins, otherwise the abbreviation must
select entries that agree in `has_arg` and `val`; an entry without argument
rejects `=value`. -/
def process_long_option (longopts : List option) (text : List Char) : Int × Option Nat :=
  let name := text.takeWhile (fun c => c != '=')
  let has_eq := decide (name.length < text.length)
  let found : Option (Option (Nat × option)) :=
    match find_exact longopts name 0 with
    | some e => some (some e)
    | none =>
      match find_abbrev longopts name 0 with
      | [] => some none
      | e :: es =>
        if es.all (fun x => x.2.has_arg = e.2.has_arg && x.2.val = e.2.val) then some (some e)
        else none
  match found with
  | none => (QMARK, none)
  | some none => (QMARK, none)
  | some (some (i, p)) =>
    if has_eq && p.has_arg = 0 then (QMARK, none) else (p.val, some i)

/-- A short option character: itself when it occurs in `optstring`, `?`
otherwise.  No character of `optstring` takes an argument here. -/
def short_option (optstring : List Char) (c : Char) : Int :=
  if c ∈ optstring ∧ c ≠ ':' ∧ c ≠ ';' then (c.toNat : Int) else QMARK

/-- Advance to the next element of `argv`: `--` ends the scan, elements
that are no options are passed over (the default permuting order), `--x`
is a long option, and `-x...` starts a cluster of short options. -/
def getopt_next (optstring : List Char) (longopts : List option) :
    List (List Char) → getopt_result
  | [] => ⟨-1, none, ⟨[], []⟩⟩
  | a :: rest =>
    if a = ['-', '-'] then ⟨-1, none, ⟨[], []⟩⟩
    else if nonoption a then getopt_next optstring longopts rest
    else
      match a with
      | '-' :: '-' :: text =>
        let r := process_long_option longopts text
        ⟨r.1, r.2, ⟨rest, []⟩⟩
      | _ :: c :: more => ⟨short_option optstring c, none, ⟨rest, more⟩⟩
      | _ => ⟨-1, none, ⟨[], []⟩⟩

/-- One call `getopt_long(argc, argv, optstring, longopts, &idx)`. -/
def getopt_long (d : getopt_data) (optstring : List Char) (longopts : List option) :
    getopt_result :=
  match d.nextchar with
  | c :: more => ⟨short_option optstring c, none, { d with nextchar := more }⟩
  | [] => getopt_next optstring longopts d.rest

/-! ## `irqd.c`: `check_opts` -/

/-- The table `lopts` of `check_opts`; the value 118 is the character
`v`. -/
def lopts : List option :=
  [⟨"verbose".toList, 0, 118⟩, ⟨"version".toList, 0, 0⟩]

/-- The statement `verbose++` on an `int`. -/
def incr_int (v : Int) : Int := if v + 1 < 2 ^ 31 then v + 1 else v + 1 - 2 ^ 32

/-- The loop of `check_opts`: each round is one call of `getopt_long`;
`none` when the rounds allowed are used up.  The character `d` is 100, `v`
is 118 and `?` is 63. -/
def check_opts_loop : Nat → Globals → getopt_data → Nat → Option (Int × Globals)
  | 0, _, _, _ => none
  | fuel + 1, g, d, idx =>
    let r := getopt_long d "dv".toList lopts
    let idx1 := r.longind.getD idx
    if r.c = -1 then some (0, g)
    else if r.c = 0 then
      (if idx1 = 1 then check_opts_loop fuel g r.d idx1 else some (-1, g))
    else if r.c = 100 then check_opts_loop fuel { g with no_daemon := true } r.d idx1
    else if r.c = 118 then check_opts_loop fuel { g with verbose := incr_int g.verbose } r.d idx1
    else if r.c = QMARK then some (-1, g)
    else check_opts_loop fuel g r.d idx1

/-- The number of characters and elements still to be scanned; every call
of `getopt_long` that finds an option lowers it. -/
def scan_size (d : getopt_data) : Nat :=
  d.nextchar.length + (d.rest.map (fun a => a.length + 1)).sum

/-- `check_opts(argc, argv)`: the scan starts after `argv[0]`; the result is
the return value with the globals afterwards. -/
def check_opts (g : Globals) (argv : List (List Char)) : Option (Int × Globals) :=
  check_opts_loop (scan_size ⟨argv.drop 1, []⟩ + 1) g ⟨argv.drop 1, []⟩ 0

/-! ## `irqd.c`: `daemonize`, `write_pid` and `main` -/

/-- `_PATH_VARRUN` of `<paths.h>`. -/
def PATH_VARRUN : List Char := "/var/run/".toList

/-- The macro `PID_FILE`. -/
def PID_FILE : List Char := "irqd.pid".toList

/-- What `fork` answers: an error, 0 in the child, the child's pid in the
parent. -/
inductive fork_result where
  | failed
  | child
  | parent
deriving DecidableEq, Repr

/-- What the system answers to the calls of `main`, `daemonize` and
`write_pid`. -/
structure Kernel where
  /-- `geteuid()` -/
  euid : Nat
  /-- `getpid()` -/
  pid : Nat
  /-- `cpu_count()` once `cpu_init()` has returned -/
  ncpus : Nat
  /-- `fork()` -/
  fork : fork_result
  /-- whether `setsid()` succeeds -/
  setsid_ok : Bool
  /-- whether `fdopen()` succeeds -/
  fdopen_ok : Bool
  /-- whether a file may be created in the run directory -/
  can_create : Bool
  /-- what the `write` behind `fclose` answers -/
  flushed : Int
  /-- `getenv("IRQD_PREFIX")` -/
  getenv_prefix : Option (List Char)
deriving DecidableEq, Repr

/-- `daemonize()`: the parent of the fork leaves through `_exit(0)`; the
child returns -1 when `setsid` fails and 0 otherwise; a failed fork returns
-1.  The working directory and descriptors 0 to 2 are not part of the
world. -/
def daemonize (k : Kernel) : Outcome Int :=
  match k.fork with
  | fork_result.failed => Outcome.ret (-1)
  | fork_result.parent => Outcome.exit 0
  | fork_result.child => if k.setsid_ok then Outcome.ret 0 else Outcome.ret (-1)

/-- The path both `write_pid` and `irqd_at_exit` format. -/
def pid_path : List Char := cstr (snprintf PATH_MAX (PATH_VARRUN ++ PID_FILE)).1

/-- `open(path, O_RDWR | O_CREAT, 0644)`: an existing file is opened when it
is writable, a missing one is created empty when the directory allows it. -/
def open_rdwr_creat (w : World) (can_create : Bool) (path : List Char) :
    Option (List Char) × World :=
  let t := Syscall.sys_open path true :: w.trace
  match w.fs.find path with
  | some f => if f.writable then (some path, { w with trace := t }) else (none, { w with trace := t })
  | none =>
    if can_create then (some path, { fs := w.fs.store path ⟨[], true⟩, trace := t })
    else (none, { w with trace := t })

/-- `unlink(path)`. -/
def sys_unlink (w : World) (path : List Char) : World :=
  { fs := w.fs.filter (fun e => e.1 != path), trace := Syscall.sys_unlink path :: w.trace }

/-- `write_pid()`: the return value and the world afterwards.  The text of
`fprintf` reaches the file when `fclose` flushes it, `k.flushed` being what
that `write` answers; on success `irqd_at_exit` is registered. -/
def write_pid (k : Kernel) (w : World) : Int × World :=
  match open_rdwr_creat w k.can_create pid_path with
  | (none, w1) => (-1, w1)
  | (some fd, w1) =>
    if !k.fdopen_ok then (-1, w1)
    else
      let text := fmt_u k.pid ++ [NL]
      (0, sys_write w1 fd text text.length k.flushed)

/-- `irqd_at_exit()`. -/
def irqd_at_exit (w : World) : World := sys_unlink w pid_path

/-- The globals when `main` starts: zero-initialised. -/
def initial_globals : Globals := ⟨[], false, 0⟩

/-- A run of `main` up to its end: the exit status, the globals and the
world at that point, whether `daemonize` was called, what `write_pid`
returned if it was called, and whether `ev_dispatch` was entered. -/
structure Run where
  status : Int
  g : Globals
  w : World
  daemonized : Bool
  write_pid_ret : Option Int
  dispatched : Bool
deriving DecidableEq, Repr

/-- `main(argc, argv)`.  The calls into the logging, event, cpu and
interface modules return and leave the files alone; `cpu_count()` is
`k.ncpus`; `ev_dispatch()` returns, after which `main` returns 0 and the
handler registered by `write_pid` runs. -/
def main (k : Kernel) (w : World) (argv : List (List Char)) : Option Run :=
  match check_opts initial_globals argv with
  | none => none
  | some (r, g) =>
    if r < 0 then some ⟨1, g, w, false, none, false⟩
    else
      let g1 : Globals :=
        { g with irqd_prefix := match k.getenv_prefix with
                                | some p => p
                                | none => [NUL] }
      if k.euid ≠ 0 then some ⟨1, g1, w, false, none, false⟩
      else if k.ncpus = 1 then some ⟨0, g1, w, false, none, false⟩
      else
        match (if !g1.no_daemon then daemonize k else Outcome.ret 0) with
        | Outcome.exit s => some ⟨s, g1, w, true, none, false⟩
        | Outcome.abort => none
        | Outcome.ret _ =>
          let p := write_pid k w
          if p.1 < 0 then some ⟨1, g1, p.2, !g1.no_daemon, some p.1, false⟩
          else some ⟨0, g1, irqd_at_exit p.2, !g1.no_daemon, some p.1, true⟩

/-! ## Argument lists -/

/-- The argument `-d`. -/
def OPT_D : List Char := "-d".toList

/-- The argument `-v`. -/
def OPT_V : List Char := "-v".toList

/-- The argument `--verbose`. -/
def OPT_VERBOSE : List Char := "--verbose".toList

/-- The argument `--version`. -/
def OPT_VERSION : List Char := "--version".toList

/-- The four options the first half of the contract of `check_opts` is
about. -/
def known_options : List (List Char) := [OPT_D, OPT_V, OPT_VERBOSE, OPT_VERSION]

/-- What one of the four options does to the globals. -/
def apply_option (g : Globals) (a : List Char) : Globals :=
  if a = OPT_D then { g with no_daemon := true }
  else if a = OPT_V ∨ a = OPT_VERBOSE then { g with verbose := incr_int g.verbose }
  else g

/-- The number of `-v` and `--verbose` in an argument list. -/
def verbose_count (args : List (List Char)) : Nat :=
  args.count OPT_V + args.count OPT_VERBOSE

/-- A cluster of short options with a character outside `dv`. -/
def bad_short (cs : List Char) : Bool :=
  cs.any (fun c => short_option "dv".toList c == QMARK)

/-- An option element that `getopt_long` does not recognise: a long option
that `lopts` does not resolve, or a cluster with a character outside
`dv`. -/
def bad_element (a : List Char) : Bool :=
  match a with
  | '-' :: '-' :: text => (process_long_option lopts text).1 == QMARK
  | '-' :: c :: more => bad_short (c :: more)
  | _ => false

/-- An argument list with an unrecognised option: an unrecognised option
element before the first `--`. -/
def has_unrecognised : List (List Char) → Bool
  | [] => false
  | a :: rest => if a = ['-', '-'] then false else bad_element a || has_unrecognised rest

/-- A scanning state with an unrecognised option ahead. -/
def bad_state (d : getopt_data) : Bool := bad_short d.nextchar || has_unrecognised d.rest

/-- What a call of `getopt_long` yields in `check_opts`, for a state of
size `size` of which `bad` tells whether an unrecognised option is ahead:
the end of the scan (only if none is ahead), `?`, or one of `d`, `v` and
`--version`, with a state that is smaller and keeps what is ahead. -/
def step_ok (r : getopt_result) (size : Nat) (bad : Bool) : Prop :=
  (r.c = -1 ∧ bad = false) ∨ r.c = QMARK ∨
  ((r.c = 100 ∨ r.c = 118 ∨ (r.c = 0 ∧ r.longind = some 1)) ∧
    scan_size r.d < size ∧ (bad = true → bad_state r.d = true))

/-! ## Sample inputs -/

/-- A world whose only file is the affinity file of interrupt 17. -/
def world17 (content : List Char) (writable : Bool) : World :=
  ⟨[("/proc/irq/17/smp_affinity".toList, ⟨content, writable⟩)], []⟩

/-- A world whose only file is the PID file, left by another instance. -/
def world_pid : World := ⟨[("/var/run/irqd.pid".toList, ⟨"123\n".toList, true⟩)], []⟩

/-- A root process with pid 456 on a host of four CPUs. -/
def kernel456 : Kernel :=
  { euid := 0, pid := 456, ncpus := 4, fork := fork_result.child, setsid_ok := true,
    fdopen_ok := true, can_create := true, flushed := 4, getenv_prefix := none }

/-! ## Theorems: `CPU_SS_DIFF` -/

/-- C1 (counterexample): with `old = 20` and `new = 3` the macro
`CPU_SS_DIFF` yields the wrapped value 4294967279, not 0. -/
theorem CPU_SS_DIFF_reset_wraps :
    CPU_SS_DIFF (ci_of_totals 20 3) softnet_stat.total = 4294967279 ∧
    CPU_SS_DIFF (ci_of_totals 20 3) softnet_stat.total ≠ 0 := by
  decide

/-- C1 (amended): for 32-bit counters `old` and `new`, `CPU_SS_DIFF` is the
difference modulo `2^32`: `new - old` when `new >= old`, and the wrapped,
non-zero value `2^32 - (old - new)` when `new < old`. -/
theorem CPU_SS_DIFF_modular (ci : cpu_info) (var : softnet_stat → Nat)
    (hold : var (ci.ci_ss OLD) < 2 ^ 32) (hnew : var (ci.ci_ss NEW) < 2 ^ 32) :
    (var (ci.ci_ss OLD) ≤ var (ci.ci_ss NEW) →
      CPU_SS_DIFF ci var = var (ci.ci_ss NEW) - var (ci.ci_ss OLD)) ∧
    (var (ci.ci_ss NEW) < var (ci.ci_ss OLD) →
      CPU_SS_DIFF ci var = 2 ^ 32 - (var (ci.ci_ss OLD) - var (ci.ci_ss NEW)) ∧
      CPU_SS_DIFF ci var ≠ 0) := by
  unfold CPU_SS_DIFF
  rw [Nat.mod_eq_of_lt hold]
  constructor
  · intro h
    have e : var (ci.ci_ss NEW) + 2 ^ 32 - var (ci.ci_ss OLD)
        = (var (ci.ci_ss NEW) - var (ci.ci_ss OLD)) + 2 ^ 32 := by omega
    rw [e, Nat.add_mod_right]
    exact Nat.mod_eq_of_lt (by omega)
  · intro h
    have e : var (ci.ci_ss NEW) + 2 ^ 32 - var (ci.ci_ss OLD)
        = 2 ^ 32 - (var (ci.ci_ss OLD) - var (ci.ci_ss NEW)) := by omega
    rw [e, Nat.mod_eq_of_lt (by omega)]
    exact ⟨rfl, by omega⟩

/-- C1 (witness): the two sample pairs, `5, 17` giving 12 and `20, 3`
giving the wrapped value. -/
theorem CPU_SS_DIFF_modular_witness :
    CPU_SS_DIFF (ci_of_totals 5 17) softnet_stat.total = 17 - 5 ∧
    CPU_SS_DIFF (ci_of_totals 20 3) softnet_stat.total = 2 ^ 32 - (20 - 3) :=
  ⟨(CPU_SS_DIFF_modular (ci_of_totals 5 17) softnet_stat.total (by decide) (by decide)).1
      (by decide),
   ((CPU_SS_DIFF_modular (ci_of_totals 20 3) softnet_stat.total (by decide) (by decide)).2
      (by decide)).1⟩

/-! ## Theorems: `irq_set_affinity` -/

/-- C2 (the code at the failing input): for the mask `2^56`, of 15
hexadecimal digits, `write` is handed 16 bytes, the digits followed by a
NUL: the newline did not fit the 16-byte buffer.  For mask 5 the bytes are
`5` and a newline. -/
theorem irq_set_affinity_mask_2_56 :
    writes_of (irq_set_affinity initial_globals (world17 [] true) 16 17 (2 ^ 56)).2.trace
      = [Syscall.sys_write "/proc/irq/17/smp_affinity".toList
          ("100000000000000".toList ++ [NUL]) 16] ∧
    (irq_set_affinity initial_globals (world17 [] true) 16 17 (2 ^ 56)).1 = Outcome.ret 0 ∧
    fmt_x64 (2 ^ 56) ++ [NL] = "100000000000000".toList ++ [NL] ∧
    writes_of (irq_set_affinity initial_globals (world17 [] true) 2 17 5).2.trace
      = [Syscall.sys_write "/proc/irq/17/smp_affinity".toList ("5".toList ++ [NL]) 2] := by
  decide

/-- C3 (the code at the failing input): with `irqd_prefix` set to
`/tmp/root`, `irq_set_affinity(17, 5)` opens `/proc/irq/17/smp_affinity`,
not the path below the prefix. -/
theorem irq_set_affinity_ignores_prefix :
    opens_of (irq_set_affinity ⟨"/tmp/root".toList ++ [NUL], false, 0⟩
        (world17 [] true) 2 17 5).2.trace
      = ["/proc/irq/17/smp_affinity".toList] ∧
    opens_of (irq_set_affinity ⟨"/tmp/root".toList ++ [NUL], false, 0⟩
        (world17 [] true) 2 17 5).2.trace
      ≠ ["/tmp/root/proc/irq/17/smp_affinity".toList] := by
  decide

/-- The call when the affinity file cannot be opened: -1, and only the
`open` is added to the trace. -/
theorem irq_set_affinity_closed (g : Globals) (w : World) (nwritten irq : Int) (mask : Nat)
    (h : ∀ f, w.fs.find (smp_affinity_path irq) = some f → f.writable = false) :
    irq_set_affinity g w nwritten irq mask
      = (Outcome.ret (-1),
         { w with trace := Syscall.sys_open (smp_affinity_path irq) false :: w.trace }) := by
  unfold irq_set_affinity open_wronly
  cases hf : w.fs.find (smp_affinity_path irq) with
  | none => simp [hf]
  | some f => simp [hf, h f hf]

/-- The call when the affinity file can be opened: the text is formatted
into the 16-byte buffer, written, and the result of `write` is checked. -/
theorem irq_set_affinity_opened (g : Globals) (w : World) (nwritten irq : Int) (mask : Nat)
    (f : File) (hf : w.fs.find (smp_affinity_path irq) = some f) (hw : f.writable = true) :
    irq_set_affinity g w nwritten irq mask
      = (BUG_ON (nwritten != ((snprintf 16 (fmt_x64 mask ++ [NL])).2 : Int)) (Outcome.ret 0),
         sys_write { w with trace := Syscall.sys_open (smp_affinity_path irq) false :: w.trace }
           (smp_affinity_path irq) (snprintf 16 (fmt_x64 mask ++ [NL])).1
           (snprintf 16 (fmt_x64 mask ++ [NL])).2 nwritten) := by
  unfold irq_set_affinity open_wronly
  simp [hf, hw]

/-- C4: when the affinity file is missing or read-only, `irq_set_affinity`
returns -1, issues no `write` and leaves every file as it was; and it
returns 0 only if the file exists and is writable, so that the open
succeeded. -/
theorem irq_set_affinity_open_failure (g : Globals) (w : World) (nwritten irq : Int)
    (mask : Nat) :
    ((∀ f, w.fs.find (smp_affinity_path irq) = some f → f.writable = false) →
      (irq_set_affinity g w nwritten irq mask).1 = Outcome.ret (-1) ∧
      (irq_set_affinity g w nwritten irq mask).2.fs = w.fs ∧
      writes_of (irq_set_affinity g w nwritten irq mask).2.trace = writes_of w.trace) ∧
    ((irq_set_affinity g w nwritten irq mask).1 = Outcome.ret 0 →
      (open_wronly w (smp_affinity_path irq)).1 = some (smp_affinity_path irq) ∧
      ∃ f, w.fs.find (smp_affinity_path irq) = some f ∧ f.writable = true) := by
  constructor
  · intro h
    rw [irq_set_affinity_closed g w nwritten irq mask h]
    simp [writes_of]
  · intro h
    by_cases hc : ∀ f, w.fs.find (smp_affinity_path irq) = some f → f.writable = false
    · rw [irq_set_affinity_closed g w nwritten irq mask hc] at h
      simp at h
    · push_neg at hc
      obtain ⟨f, hf, hw⟩ := hc
      have hw1 : f.writable = true := by simpa using hw
      exact ⟨by simp [open_wronly, hf, hw1], f, hf, hw1⟩

/-- C4 (witness): a read-only affinity file holding `ff` is left as it
was, and the call returns -1. -/
theorem irq_set_affinity_open_failure_witness :
    (irq_set_affinity initial_globals (world17 "ff\n".toList false) 2 17 5).1
      = Outcome.ret (-1) ∧
    (irq_set_affinity initial_globals (world17 "ff\n".toList false) 2 17 5).2.fs
      = (world17 "ff\n".toList false).fs ∧
    writes_of (irq_set_affinity initial_globals (world17 "ff\n".toList false) 2 17 5).2.trace
      = writes_of (world17 "ff\n".toList false).trace :=
  (irq_set_affinity_open_failure initial_globals (world17 "ff\n".toList false) 2 17 5).1
    (by decide)

/-- C5 (counterexample): with the affinity file open, a failed `write`
(-1) and a short one (1 byte of 2) both abort the process; no value, error
or other, is returned to the caller. -/
theorem irq_set_affinity_write_failure_aborts :
    (irq_set_affinity initial_globals (world17 [] true) (-1) 17 5).1 = Outcome.abort ∧
    (irq_set_affinity initial_globals (world17 [] true) 1 17 5).1 = Outcome.abort ∧
    ¬ ∃ v : Int, (irq_set_affinity initial_globals (world17 [] true) (-1) 17 5).1
      = Outcome.ret v := by
  have h1 : (irq_set_affinity initial_globals (world17 [] true) (-1) 17 5).1
      = Outcome.abort := by decide
  refine ⟨h1, by decide, ?_⟩
  rintro ⟨v, hv⟩
  rw [h1] at hv
  cases hv

/-- C5 (amended): with the affinity file open, `irq_set_affinity` trips
`BUG_ON(nwritten != len)` whenever `write` answers anything but the
requested length, so the process is aborted and nothing is returned; it
returns 0 exactly when `write` answers the requested length. -/
theorem irq_set_affinity_write_failure (g : Globals) (w : World) (nwritten irq : Int)
    (mask : Nat) (f : File) (hf : w.fs.find (smp_affinity_path irq) = some f)
    (hw : f.writable = true) :
    (nwritten ≠ (((fmt_x64 mask).length + 1 : Nat) : Int) →
      (irq_set_affinity g w nwritten irq mask).1 = Outcome.abort) ∧
    (nwritten = (((fmt_x64 mask).length + 1 : Nat) : Int) →
      (irq_set_affinity g w nwritten irq mask).1 = Outcome.ret 0) := by
  rw [irq_set_affinity_opened g w nwritten irq mask f hf hw]
  constructor
  · intro h
    have h1 : ¬ nwritten = ((fmt_x64 mask).length : Int) + 1 := by
      intro e
      exact h (by rw [e]; push_cast; rfl)
    simp [BUG_ON, snprintf, h1]
  · intro h
    simp [BUG_ON, snprintf, h]

/-- C5 (witness): a failed write on the open affinity file of interrupt 17
aborts, and a complete one returns 0. -/
theorem irq_set_affinity_write_failure_witness :
    (irq_set_affinity initial_globals (world17 [] true) (-1) 17 5).1 = Outcome.abort ∧
    (irq_set_affinity initial_globals (world17 [] true) 2 17 5).1 = Outcome.ret 0 :=
  ⟨(irq_set_affinity_write_failure initial_globals (world17 [] true) (-1) 17 5
      ⟨[], true⟩ (by decide) rfl).1 (by decide),
   (irq_set_affinity_write_failure initial_globals (world17 [] true) 2 17 5
      ⟨[], true⟩ (by decide) rfl).2 (by decide)⟩

/-! ## Theorems: `write_pid` -/

/-- C6 (the code at the failing input): with a PID file holding `123`
already present, `write_pid` of process 456 returns 0 and the file now
holds `456`; `main` goes on into `ev_dispatch` and ends with status 0. -/
theorem write_pid_existing_file :
    world_pid.fs.find pid_path = some ⟨"123\n".toList, true⟩ ∧
    (write_pid kernel456 world_pid).1 = 0 ∧
    (write_pid kernel456 world_pid).2.fs.find pid_path = some ⟨"456\n".toList, true⟩ ∧
    (main kernel456 world_pid ["irqd".toList, "-d".toList]).map
        (fun r => (r.status, r.write_pid_ret, r.dispatched))
      = some (0, some 0, true) := by
  decide

/-! ## Theorems: C strings in buffers -/

/-- The string of a buffer holds no NUL. -/
theorem cstr_no_nul (buf : List Char) : NUL ∉ cstr buf := by
  intro h
  have := List.mem_takeWhile_imp h
  simp at this

/-- A text without NUL, followed by a NUL, is the string of the buffer. -/
theorem cstr_append_nul (x tail : List Char) (hx : NUL ∉ x) : cstr (x ++ NUL :: tail) = x := by
  induction x with
  | nil => simp [cstr]
  | cons c cs ih =>
    have hc : c ≠ NUL := fun e => hx (by simp [e])
    have hcs : NUL ∉ cs := fun e => hx (by simp [e])
    have := ih hcs
    have hb : (c != NUL) = true := by simpa using hc
    simp only [cstr] at this ⊢
    simp [List.takeWhile, hb, this]

/-- A prefix of a text without NUL holds no NUL. -/
theorem take_no_nul (x : List Char) (k : Nat) (hx : NUL ∉ x) : NUL ∉ x.take k :=
  fun h => hx (List.mem_of_mem_take h)

/-- Storing a NUL at or after the end of the text of a buffer keeps the
text and the length. -/
theorem set_after_text (x tail : List Char) (i : Nat) (hi : x.length ≤ i) :
    ∃ tail2, (x ++ NUL :: tail).set i NUL = x ++ NUL :: tail2 ∧ tail2.length = tail.length := by
  induction x generalizing i with
  | nil =>
    cases i with
    | zero => exact ⟨tail, by simp, rfl⟩
    | succ j => exact ⟨tail.set j NUL, by simp, by simp⟩
  | cons c cs ih =>
    cases i with
    | zero => simp at hi
    | succ j =>
      obtain ⟨t2, h1, h2⟩ := ih j (by simpa using hi)
      exact ⟨t2, by simp [h1], h2⟩

/-! ## Theorems: `xstrncpy` -/

/-- Reading past a text reads the rest. -/
theorem getElem_after_text (s t : List Char) (j : Nat) : (s ++ t)[s.length + j]? = t[j]? := by
  induction s with
  | nil => simp
  | cons c cs ih =>
    have e : (c :: cs).length + j = (cs.length + j) + 1 := by simp; omega
    rw [e]
    simpa using ih

/-- The last byte of a padding is a NUL. -/
theorem getElem_padding (j : Nat) (rest : List Char) :
    (List.replicate (j + 1) NUL ++ rest)[j]? = some NUL := by
  induction j with
  | zero => simp
  | succ i ih =>
    rw [List.replicate_succ]
    simpa using ih

/-- The destination after `xstrncpy` when the string of `src` is shorter
than `n`: the string, then NULs up to index `n - 1`. -/
theorem xstrncpy_short (dst : Nat) (mem src : List Char) (j : Nat)
    (hmem : (cstr src).length + j + 1 ≤ mem.length) (hsrc : NUL ∈ src) :
    xstrncpy dst mem src ((cstr src).length + j + 1)
      = some (dst, cstr src ++ NUL ::
          (List.replicate j NUL ++ mem.drop ((cstr src).length + j + 1))) := by
  have hnot : ¬ mem.length < (cstr src).length + j + 1 := by omega
  have hin : ¬ (NUL ∉ src ∧ src.length < (cstr src).length + j + 1) := fun h => h.1 hsrc
  have e1 : (cstr src).length + j + 1 - (cstr src).length = j + 1 := by omega
  have e2 : List.take ((cstr src).length + j + 1) (cstr src) = cstr src :=
    List.take_of_length_le (by omega)
  have e3 : (cstr src ++ List.replicate (j + 1) NUL).length = (cstr src).length + j + 1 := by
    simp; omega
  have e4 : (cstr src ++ List.replicate (j + 1) NUL
      ++ List.drop ((cstr src).length + j + 1) mem)[(cstr src).length + j]? = some NUL := by
    rw [List.append_assoc, getElem_after_text, getElem_padding]
  simp only [xstrncpy, hnot, hin, if_false, strncpy, store_at0, Nat.add_sub_cancel,
    Nat.succ_ne_zero, e1, e2, e3, e4]
  simp [List.replicate_succ]

/-- Taking one character more than a text `p` out of `p ++ c :: q`. -/
theorem take_text_succ (p q : List Char) (c : Char) :
    (p ++ c :: q).take (p.length + 1) = p ++ [c] := by
  induction p with
  | nil => simp
  | cons d ds ih => simpa using ih

/-- Taking a text `p` out of `p ++ q`. -/
theorem take_text (p q : List Char) : (p ++ q).take p.length = p := by
  simp

/-- Reading the byte that follows a text. -/
theorem getElem_text (p rest : List Char) (c : Char) : (p ++ c :: rest)[p.length]? = some c := by
  induction p with
  | nil => simp
  | cons d ds ih => simpa using ih

/-- Storing over the byte that follows a text. -/
theorem set_text (p rest : List Char) (c x : Char) :
    (p ++ c :: rest).set p.length x = p ++ x :: rest := by
  simp

/-- The destination after `xstrncpy` when the string of `src` has `n`
characters or more: its first `n - 1` characters and a NUL. -/
theorem xstrncpy_long (dst : Nat) (mem src : List Char) (p q : List Char) (c : Char)
    (hsrc : cstr src = p ++ c :: q) (hmem : p.length + 1 ≤ mem.length) (hnul : NUL ∈ src) :
    xstrncpy dst mem src (p.length + 1)
      = some (dst, p ++ NUL :: mem.drop (p.length + 1)) := by
  have hs := cstr_no_nul src
  rw [hsrc] at hs
  have hc : c ≠ NUL := fun e => hs (by simp [e])
  have hb : (c != NUL) = true := by simpa using hc
  have hnot : ¬ mem.length < p.length + 1 := by omega
  have hin : ¬ (NUL ∉ src ∧ src.length < p.length + 1) := fun h => h.1 hnul
  have e1 : p.length + 1 - (p ++ c :: q).length = 0 := by simp
  have e3 : (p ++ [c]).length = p.length + 1 := by simp
  have e4 : (p ++ c :: List.drop (p.length + 1) mem)[p.length]? = some c := getElem_text _ _ _
  simp only [xstrncpy, hnot, hin, if_false, strncpy, store_at0, Nat.add_sub_cancel,
    Nat.succ_ne_zero, hsrc, e1, take_text_succ, List.replicate_zero, List.append_nil, e3,
    List.append_assoc, List.singleton_append, e4, hb, if_true, set_text]

/-- C10: for `n >= 1`, a destination of at least `n` bytes and a
NUL-terminated `src`, `xstrncpy` returns `dst`, and the destination then
holds a string that is the first `min(strlen(src), n-1)` characters of
`src` (all of `src` when `strlen(src) < n`), with a NUL at index `n-1`, the
bytes from index `n` on and the size being as before. -/
theorem xstrncpy_spec (dst : Nat) (mem src : List Char) (n : Nat)
    (hn : 1 ≤ n) (hmem : n ≤ mem.length) (hsrc : NUL ∈ src) :
    ∃ m, xstrncpy dst mem src n = some (dst, m) ∧
      cstr m = (cstr src).take (n - 1) ∧
      (cstr m).length = min (cstr src).length (n - 1) ∧
      cstr m <+: cstr src ∧
      ((cstr src).length < n → cstr m = cstr src) ∧
      m[n - 1]? = some NUL ∧
      m.drop n = mem.drop n ∧
      m.length = mem.length := by
  have hs := cstr_no_nul src
  obtain ⟨k, rfl⟩ : ∃ k, n = k + 1 := ⟨n - 1, by omega⟩
  by_cases hlen : (cstr src).length ≤ k
  · obtain ⟨j, rfl⟩ : ∃ j, k = (cstr src).length + j := ⟨k - (cstr src).length, by omega⟩
    refine ⟨_, xstrncpy_short dst mem src j hmem hsrc, ?_⟩
    have hc := cstr_append_nul (cstr src)
      (List.replicate j NUL ++ mem.drop ((cstr src).length + j + 1)) hs
    rw [hc]
    refine ⟨?_, ?_, ?_, ?_, ?_, ?_, ?_⟩
    · rw [List.take_of_length_le]; simp
    · simp
    · exact List.prefix_refl _
    · intro _; rfl
    · have e : NUL :: (List.replicate j NUL ++ mem.drop ((cstr src).length + j + 1))
          = List.replicate (j + 1) NUL ++ mem.drop ((cstr src).length + j + 1) := by
        rw [List.replicate_succ]; rfl
      simp only [Nat.add_sub_cancel]
      rw [e, getElem_after_text, getElem_padding]
    · have e : cstr src ++ NUL :: (List.replicate j NUL ++
          mem.drop ((cstr src).length + j + 1))
          = (cstr src ++ List.replicate (j + 1) NUL) ++ mem.drop ((cstr src).length + j + 1) := by
        rw [List.replicate_succ]; simp
      have l : (cstr src ++ List.replicate (j + 1) NUL).length = (cstr src).length + j + 1 := by
        simp; omega
      rw [e, ← l, List.drop_left]
    · simp; omega
  · have hk : k < (cstr src).length := by omega
    have hsplit : cstr src = (cstr src).take k ++ (cstr src)[k] :: (cstr src).drop (k + 1) := by
      rw [← List.drop_eq_getElem_cons hk, List.take_append_drop]
    have hl : ((cstr src).take k).length = k := by simp; omega
    have hx := xstrncpy_long dst mem src _ _ _ hsplit (by rw [hl]; exact hmem) hsrc
    rw [hl] at hx
    refine ⟨_, hx, ?_⟩
    have hc := cstr_append_nul ((cstr src).take k) (mem.drop (k + 1)) (take_no_nul _ _ hs)
    rw [hc]
    refine ⟨?_, ?_, ?_, ?_, ?_, ?_, ?_⟩
    · simp
    · simp; omega
    · exact List.take_prefix _ _
    · intro h; omega
    · have := getElem_text ((cstr src).take k) (mem.drop (k + 1)) NUL
      rw [hl] at this
      simpa using this
    · have l : ((cstr src).take k ++ [NUL]).length = k + 1 := by simp; omega
      have e : (cstr src).take k ++ NUL :: mem.drop (k + 1)
          = ((cstr src).take k ++ [NUL]) ++ mem.drop (k + 1) := by simp
      rw [e]
      nth_rewrite 1 [← l]
      rw [List.drop_left]
    · simp; omega

/-- C10 (witness): copying `hello` with `n = 4` into an 8-byte buffer. -/
theorem xstrncpy_spec_witness :
    ∃ m, xstrncpy 1000 "XXXXXXXX".toList ("hello".toList ++ [NUL]) 4 = some (1000, m) ∧
      cstr m = (cstr ("hello".toList ++ [NUL])).take (4 - 1) ∧
      (cstr m).length = min (cstr ("hello".toList ++ [NUL])).length (4 - 1) ∧
      cstr m <+: cstr ("hello".toList ++ [NUL]) ∧
      ((cstr ("hello".toList ++ [NUL])).length < 4 → cstr m = cstr ("hello".toList ++ [NUL])) ∧
      m[4 - 1]? = some NUL ∧
      m.drop 4 = "XXXXXXXX".toList.drop 4 ∧
      m.length = "XXXXXXXX".toList.length :=
  xstrncpy_spec 1000 "XXXXXXXX".toList ("hello".toList ++ [NUL]) 4 (by decide) (by decide)
    (by decide)

/-! ## Theorems: `id_path` -/

/-- C9: for a path that begins with `/` and a block of `PATH_MAX` bytes
from `malloc`, `id_path` returns a block of `PATH_MAX` bytes holding a
NUL-terminated string: the first `PATH_MAX - 1` characters of prefix
followed by path, which is all of it when it is shorter than `PATH_MAX`,
and the path itself when the prefix is empty.  For a path that does not
begin with `/`, the empty one included, `BUG_ON` aborts the process
whatever `malloc` answers. -/
theorem id_path_spec (g : Globals) (buf path : List Char) (hbuf : buf.length = PATH_MAX) :
    (path.head? = some '/' →
      ∃ b, id_path g (some buf) path = Outcome.ret b ∧
        b.length = PATH_MAX ∧
        (cstr b).length < b.length ∧
        cstr b = (cstr g.irqd_prefix ++ cstr path).take (PATH_MAX - 1) ∧
        ((cstr g.irqd_prefix ++ cstr path).length < PATH_MAX →
          cstr b = cstr g.irqd_prefix ++ cstr path) ∧
        (cstr g.irqd_prefix = [] → (cstr path).length < PATH_MAX → cstr b = cstr path)) ∧
    (path.head? ≠ some '/' → ∀ m, id_path g m path = Outcome.abort) := by
  constructor
  · intro hp
    have hno : NUL ∉ cstr g.irqd_prefix ++ cstr path := by
      intro h
      rcases List.mem_append.mp h with h | h
      · exact cstr_no_nul _ h
      · exact cstr_no_nul _ h
    generalize hs : cstr g.irqd_prefix ++ cstr path = s at hno
    have hx : NUL ∉ s.take (PATH_MAX - 1) := take_no_nul _ _ hno
    have hxl : (s.take (PATH_MAX - 1)).length ≤ PATH_MAX - 1 := by simp
    obtain ⟨t2, hset, ht2⟩ := set_after_text (s.take (PATH_MAX - 1))
      (buf.drop (s.take (PATH_MAX - 1) ++ [NUL]).length) (PATH_MAX - 1) hxl
    have hb : id_path g (some buf) path = Outcome.ret (s.take (PATH_MAX - 1) ++ NUL :: t2) := by
      have hne : (path.head? != some '/') = false := by simp [hp]
      have h0 : ¬ PATH_MAX = 0 := by decide
      simp only [id_path, BUG_ON, hne, snprintf, hs, store_at0, h0, if_false,
        Bool.false_eq_true]
      rw [List.append_assoc, List.singleton_append, hset]
    have hc := cstr_append_nul (s.take (PATH_MAX - 1)) t2 hx
    refine ⟨_, hb, ?_, ?_, hc, ?_, ?_⟩
    · have hP : PATH_MAX = 4096 := rfl
      simp only [List.length_append, List.length_cons, ht2, List.length_drop, hbuf,
        List.length_singleton, List.length_nil, List.length_take] at hxl ⊢
      omega
    · rw [hc]
      simp only [List.length_append, List.length_cons]
      omega
    · intro hlt
      rw [hc, List.take_of_length_le (by omega)]
    · intro he hlt
      rw [hc, ← hs, he, List.nil_append, List.take_of_length_le (by omega)]
  · intro hp m
    simp [id_path, BUG_ON, hp]

/-- C9 (witness): prefix `/tmp` and path `/proc/stat` in a fresh block. -/
theorem id_path_spec_witness :
    (∃ b, id_path ⟨"/tmp".toList ++ [NUL], false, 0⟩ (some (List.replicate 4096 'X'))
          ("/proc/stat".toList ++ [NUL]) = Outcome.ret b ∧
        b.length = PATH_MAX ∧
        (cstr b).length < b.length ∧
        cstr b = (cstr ("/tmp".toList ++ [NUL]) ++ cstr ("/proc/stat".toList ++ [NUL])).take
          (PATH_MAX - 1) ∧
        ((cstr ("/tmp".toList ++ [NUL]) ++ cstr ("/proc/stat".toList ++ [NUL])).length
            < PATH_MAX →
          cstr b = cstr ("/tmp".toList ++ [NUL]) ++ cstr ("/proc/stat".toList ++ [NUL])) ∧
        (cstr ("/tmp".toList ++ [NUL]) = [] →
          (cstr ("/proc/stat".toList ++ [NUL])).length < PATH_MAX →
          cstr b = cstr ("/proc/stat".toList ++ [NUL]))) ∧
    (∀ m, id_path ⟨"/tmp".toList ++ [NUL], false, 0⟩ m ("proc".toList ++ [NUL])
      = Outcome.abort) :=
  ⟨(id_path_spec ⟨"/tmp".toList ++ [NUL], false, 0⟩ (List.replicate 4096 'X')
      ("/proc/stat".toList ++ [NUL]) (List.length_replicate _ _)).1 (by decide),
   (id_path_spec ⟨"/tmp".toList ++ [NUL], false, 0⟩ (List.replicate 4096 'X')
      ("proc".toList ++ [NUL]) (List.length_replicate _ _)).2 (by decide)⟩

/-! ## Theorems: `getopt_long` -/

/-- A short option character is `d`, `v` or unrecognised. -/
theorem short_option_cases (c : Char) :
    short_option "dv".toList c = 100 ∨ short_option "dv".toList c = 118 ∨
      short_option "dv".toList c = QMARK := by
  unfold short_option
  split_ifs with h
  · have hc : c = 'd' ∨ c = 'v' := by simpa using h.1
    rcases hc with rfl | rfl
    · left; rfl
    · right; left; rfl
  · right; right; rfl

/-- A long option resolves to `--verbose`, to `--version`, or is
unrecognised. -/
theorem process_long_option_cases (text : List Char) :
    process_long_option lopts text = (QMARK, none) ∨
    process_long_option lopts text = (118, some 0) ∨
    process_long_option lopts text = (0, some 1) := by
  unfold process_long_option
  generalize List.takeWhile (fun c => c != '=') text = name
  by_cases hlt : name.length < text.length <;>
    simp only [lopts, find_exact, find_abbrev, hlt] <;> split_ifs <;> simp

/-- The four shapes of an element of `argv`. -/
theorem element_cases (a : List Char) :
    a = ['-', '-'] ∨ nonoption a = true ∨ (∃ text, text ≠ [] ∧ a = '-' :: '-' :: text) ∨
      (∃ c more, c ≠ '-' ∧ a = '-' :: c :: more) := by
  match a with
  | [] => right; left; rfl
  | [x] => right; left; unfold nonoption; split <;> simp_all
  | x :: y :: more =>
    by_cases hx : x = '-'
    · subst hx
      by_cases hy : y = '-'
      · subst hy
        cases more with
        | nil => left; rfl
        | cons z zs => right; right; left; exact ⟨z :: zs, by simp, rfl⟩
      · right; right; right; exact ⟨y, more, hy, rfl⟩
    · right; left; unfold nonoption; split <;> simp_all

/-- The element `--` ends the scan. -/
theorem getopt_next_end (os : List Char) (lo : List option) (rest : List (List Char)) :
    getopt_next os lo (['-', '-'] :: rest) = ⟨-1, none, ⟨[], []⟩⟩ := by
  simp [getopt_next]

/-- An element that is no option is passed over. -/
theorem getopt_next_skip (os : List Char) (lo : List option) (a : List Char)
    (rest : List (List Char)) (h : nonoption a = true) :
    getopt_next os lo (a :: rest) = getopt_next os lo rest := by
  have ha : a ≠ ['-', '-'] := by
    intro e
    rw [e] at h
    simp [nonoption] at h
  simp [getopt_next, ha, h]

/-- A long option element. -/
theorem getopt_next_long (os : List Char) (lo : List option) (text : List Char)
    (rest : List (List Char)) (h : text ≠ []) :
    getopt_next os lo (('-' :: '-' :: text) :: rest)
      = ⟨(process_long_option lo text).1, (process_long_option lo text).2, ⟨rest, []⟩⟩ := by
  simp [getopt_next, h, nonoption]

/-- The first character of a cluster of short options. -/
theorem getopt_next_short (os : List Char) (lo : List option) (c : Char) (more : List Char)
    (rest : List (List Char)) (h : c ≠ '-') :
    getopt_next os lo (('-' :: c :: more) :: rest)
      = ⟨short_option os c, none, ⟨rest, more⟩⟩ := by
  simp [getopt_next, h, nonoption]

/-- An element that is no option is not an unrecognised option. -/
theorem bad_element_nonoption (a : List Char) (h : nonoption a = true) :
    bad_element a = false := by
  rcases element_cases a with rfl | h1 | ⟨text, _, rfl⟩ | ⟨c, more, _, rfl⟩
  · simp [nonoption] at h
  · unfold bad_element
    split
    · simp [nonoption] at h
    · simp [nonoption] at h
    · rfl
  · simp [nonoption] at h
  · simp [nonoption] at h

/-- An unrecognised cluster of short options. -/
theorem bad_element_short (c : Char) (more : List Char) (h : c ≠ '-') :
    bad_element ('-' :: c :: more) = bad_short (c :: more) := by
  unfold bad_element
  split
  · simp_all
  · simp_all
  · simp_all

/-- The scan of the elements of `argv`, one call. -/
theorem getopt_next_spec (rest : List (List Char)) :
    step_ok (getopt_next "dv".toList lopts rest) (scan_size ⟨rest, []⟩)
      (has_unrecognised rest) := by
  induction rest with
  | nil => left; exact ⟨rfl, rfl⟩
  | cons a rest ih =>
    have hsize : scan_size ⟨a :: rest, []⟩ = a.length + 1 + scan_size ⟨rest, []⟩ := by
      simp [scan_size]
    rcases element_cases a with rfl | h1 | ⟨text, ht, rfl⟩ | ⟨c, more, hc, rfl⟩
    · left
      rw [getopt_next_end]
      exact ⟨rfl, by simp [has_unrecognised]⟩
    · have ha : a ≠ ['-', '-'] := by
        intro e
        rw [e] at h1
        simp [nonoption] at h1
      have hu : has_unrecognised (a :: rest) = has_unrecognised rest := by
        simp [has_unrecognised, ha, bad_element_nonoption a h1]
      rw [getopt_next_skip _ _ _ _ h1, hu]
      rcases ih with h | h | ⟨h, hl, hb⟩
      · left; exact h
      · right; left; exact h
      · right; right; exact ⟨h, by omega, hb⟩
    · have ha : ('-' :: '-' :: text) ≠ ['-', '-'] := by simpa using ht
      have hu : has_unrecognised (('-' :: '-' :: text) :: rest)
          = ((process_long_option lopts text).1 == QMARK || has_unrecognised rest) := by
        simp [has_unrecognised, ht, bad_element]
      rw [getopt_next_long _ _ _ _ ht, hu]
      have hs : scan_size ⟨rest, []⟩ < scan_size ⟨('-' :: '-' :: text) :: rest, []⟩ := by
        omega
      rcases process_long_option_cases text with h | h | h <;> rw [h]
      · right; left; rfl
      · right; right
        exact ⟨Or.inr (Or.inl rfl), hs, by simp [QMARK, bad_state, bad_short]⟩
      · right; right
        exact ⟨Or.inr (Or.inr ⟨rfl, rfl⟩), hs, by simp [QMARK, bad_state, bad_short]⟩
    · have ha : ('-' :: c :: more) ≠ ['-', '-'] := by simp [hc]
      have hu : has_unrecognised (('-' :: c :: more) :: rest)
          = (short_option "dv".toList c == QMARK || bad_short more
              || has_unrecognised rest) := by
        simp [has_unrecognised, hc, bad_element_short c more hc, bad_short]
      rw [getopt_next_short _ _ _ _ _ hc, hu]
      have hs : scan_size ⟨rest, more⟩ < scan_size ⟨('-' :: c :: more) :: rest, []⟩ := by
        simp [scan_size]; omega
      rcases short_option_cases c with h | h | h <;> rw [h]
      · right; right
        exact ⟨Or.inl rfl, hs, by simp [QMARK, bad_state]⟩
      · right; right
        exact ⟨Or.inr (Or.inl rfl), hs, by simp [QMARK, bad_state]⟩
      · right; left; rfl

/-- One call of `getopt_long` in `check_opts`. -/
theorem getopt_long_spec (d : getopt_data) :
    step_ok (getopt_long d "dv".toList lopts) (scan_size d) (bad_state d) := by
  obtain ⟨rest, nextchar⟩ := d
  cases nextchar with
  | nil =>
    have := getopt_next_spec rest
    simpa [getopt_long, bad_state, bad_short] using this
  | cons c more =>
    have hs : scan_size ⟨rest, more⟩ < scan_size ⟨rest, c :: more⟩ := by
      simp [scan_size]
    have hu : bad_state ⟨rest, c :: more⟩
        = (short_option "dv".toList c == QMARK || bad_state ⟨rest, more⟩) := by
      simp [bad_state, bad_short, Bool.or_assoc]
    simp only [getopt_long]
    rw [hu]
    rcases short_option_cases c with h | h | h <;> rw [h]
    · right; right
      exact ⟨Or.inl rfl, hs, by simp [QMARK]⟩
    · right; right
      exact ⟨Or.inr (Or.inl rfl), hs, by simp [QMARK]⟩
    · right; left; rfl

/-- The loop of `check_opts` ends within the rounds allowed, with 0 or -1,
with -1 when an unrecognised option is ahead, and leaves the prefix
alone. -/
theorem check_opts_loop_spec (fuel : Nat) (g : Globals) (d : getopt_data) (idx : Nat)
    (hf : scan_size d < fuel) :
    ∃ r g2, check_opts_loop fuel g d idx = some (r, g2) ∧ (r = 0 ∨ r = -1) ∧
      (bad_state d = true → r = -1) ∧ g2.irqd_prefix = g.irqd_prefix := by
  induction fuel generalizing g d idx with
  | zero => omega
  | succ f ih =>
    unfold check_opts_loop
    have hspec := getopt_long_spec d
    generalize getopt_long d "dv".toList lopts = r at hspec ⊢
    rcases hspec with ⟨hc, hb⟩ | hc | ⟨hc, hl, hb⟩
    · exact ⟨0, g, by simp [hc], Or.inl rfl, by simp [hb], rfl⟩
    · exact ⟨-1, g, by simp [hc, QMARK], Or.inr rfl, fun _ => rfl, rfl⟩
    · have hf2 : scan_size r.d < f := by omega
      rcases hc with hc | hc | ⟨hc, hi⟩
      · obtain ⟨v, g2, h1, h2, h3, h4⟩ := ih { g with no_daemon := true } r.d
          (r.longind.getD idx) hf2
        exact ⟨v, g2, by simp [hc, h1], h2, fun h => h3 (hb h), h4⟩
      · obtain ⟨v, g2, h1, h2, h3, h4⟩ := ih { g with verbose := incr_int g.verbose } r.d
          (r.longind.getD idx) hf2
        exact ⟨v, g2, by simp [hc, h1], h2, fun h => h3 (hb h), h4⟩
      · obtain ⟨v, g2, h1, h2, h3, h4⟩ := ih g r.d (r.longind.getD idx) hf2
        rw [hi] at h1
        exact ⟨v, g2, by simpa [hc, hi] using h1, h2, fun h => h3 (hb h), h4⟩

/-- The call of `getopt_long` on each of the four known options. -/
theorem getopt_long_known (a : List Char) (rest : List (List Char))
    (ha : a ∈ known_options) :
    getopt_long ⟨a :: rest, []⟩ "dv".toList lopts
      = ⟨if a = OPT_D then 100 else if a = OPT_V ∨ a = OPT_VERBOSE then 118 else 0,
         if a = OPT_VERBOSE then some 0 else if a = OPT_VERSION then some 1 else none,
         ⟨rest, []⟩⟩ := by
  have h : a = OPT_D ∨ a = OPT_V ∨ a = OPT_VERBOSE ∨ a = OPT_VERSION := by
    simpa [known_options] using ha
  rcases h with rfl | rfl | rfl | rfl
  · exact getopt_next_short "dv".toList lopts 'd' [] rest (by decide)
  · exact getopt_next_short "dv".toList lopts 'v' [] rest (by decide)
  · exact getopt_next_long "dv".toList lopts "verbose".toList rest (by decide)
  · exact getopt_next_long "dv".toList lopts "version".toList rest (by decide)

/-- The loop of `check_opts` on a list of known options: it returns 0
after applying each of them in turn. -/
theorem check_opts_loop_known (args : List (List Char)) (fuel : Nat) (g : Globals) (idx : Nat)
    (hf : args.length < fuel) (hk : ∀ a ∈ args, a ∈ known_options) :
    check_opts_loop fuel g ⟨args, []⟩ idx = some (0, args.foldl apply_option g) := by
  induction args generalizing fuel g idx with
  | nil =>
    obtain ⟨f, rfl⟩ : ∃ f, fuel = f + 1 := ⟨fuel - 1, by omega⟩
    rfl
  | cons a rest ih =>
    obtain ⟨f, rfl⟩ : ∃ f, fuel = f + 1 := ⟨fuel - 1, by simp at hf; omega⟩
    have hf2 : rest.length < f := by simpa using hf
    have hk2 : ∀ b ∈ rest, b ∈ known_options := fun b hb => hk b (by simp [hb])
    have ha : a ∈ known_options := hk a (by simp)
    have h : a = OPT_D ∨ a = OPT_V ∨ a = OPT_VERBOSE ∨ a = OPT_VERSION := by
      simpa [known_options] using ha
    unfold check_opts_loop
    rw [getopt_long_known a rest ha, List.foldl_cons]
    rcases h with rfl | rfl | rfl | rfl
    · exact ih f _ _ hf2 hk2
    · exact ih f _ _ hf2 hk2
    · exact ih f _ _ hf2 hk2
    · exact ih f _ _ hf2 hk2

/-- The rounds allowed cover one round per element. -/
theorem length_le_scan_size (args : List (List Char)) :
    args.length ≤ scan_size ⟨args, []⟩ := by
  induction args with
  | nil => simp [scan_size]
  | cons a rest ih =>
    simp only [scan_size, List.length_nil, Nat.zero_add, List.map_cons, List.sum_cons,
      List.length_cons] at ih ⊢
    omega

/-- Counting `-v` and `--verbose` one element at a time. -/
theorem verbose_count_cons (a : List Char) (rest : List (List Char)) :
    verbose_count (a :: rest)
      = verbose_count rest + (if a = OPT_V ∨ a = OPT_VERBOSE then 1 else 0) := by
  have hne : OPT_V ≠ OPT_VERBOSE := by decide
  unfold verbose_count
  simp only [List.count_cons, beq_iff_eq]
  by_cases h1 : a = OPT_V
  · subst h1
    simp only [hne, if_true, if_false, true_or]
    omega
  · by_cases h2 : a = OPT_VERBOSE
    · subst h2
      simp only [hne.symm, if_true, if_false, or_true]
      omega
    · simp only [h1, h2, if_false, or_self]
      omega

/-- The globals after applying a list of options, as long as `verbose` does
not leave the range of `int`. -/
theorem foldl_apply_option (args : List (List Char)) (g : Globals)
    (hv : g.verbose + verbose_count args < 2 ^ 31) :
    args.foldl apply_option g
      = ⟨g.irqd_prefix, g.no_daemon || decide (OPT_D ∈ args),
         g.verbose + verbose_count args⟩ := by
  induction args generalizing g with
  | nil => simp [verbose_count]
  | cons a rest ih =>
    rw [List.foldl_cons]
    rw [verbose_count_cons] at hv ⊢
    by_cases hd : a = OPT_D
    · have hnv : ¬ (a = OPT_V ∨ a = OPT_VERBOSE) := by
        rw [hd]; decide
      rw [if_neg hnv] at hv ⊢
      have hap : apply_option g a = { g with no_daemon := true } := by
        simp [apply_option, hd]
      rw [hap, ih _ (by simpa using hv)]
      simp [hd]
    · have hnd : decide (OPT_D ∈ a :: rest) = decide (OPT_D ∈ rest) := by
        simp [List.mem_cons, Ne.symm hd]
      rw [hnd]
      by_cases hvb : a = OPT_V ∨ a = OPT_VERBOSE
      · rw [if_pos hvb] at hv ⊢
        push_cast at hv ⊢
        have hi : incr_int g.verbose = g.verbose + 1 := by
          unfold incr_int
          rw [if_pos (by omega)]
        have hap : apply_option g a = { g with verbose := g.verbose + 1 } := by
          simp only [apply_option, hd, hvb, hi, if_true, if_false]
        have hv2 : g.verbose + 1 + (verbose_count rest : Int) < 2 ^ 31 := by omega
        rw [hap, ih _ hv2]
        simp only [Globals.mk.injEq, true_and]
        omega
      · rw [if_neg hvb] at hv ⊢
        have hap : apply_option g a = g := by
          simp only [apply_option, hd, hvb, if_false]
        rw [hap, ih _ (by simpa using hv)]
        simp

/-- C8: on an argument list made of `-d`, `-v`, `--verbose` and
`--version` only, `check_opts` returns 0, `verbose` has grown by the number
of `-v` and `--verbose` (within the range of `int`), `no_daemon` is true if
`-d` occurs and as before otherwise, and `--version` changes neither; on an
argument list with an unrecognised option `check_opts` returns -1. -/
theorem check_opts_spec (g : Globals) (argv0 : List Char) (args : List (List Char)) :
    ((∀ a ∈ args, a ∈ known_options) → g.verbose + verbose_count args < 2 ^ 31 →
      check_opts g (argv0 :: args)
        = some (0, ⟨g.irqd_prefix, g.no_daemon || decide (OPT_D ∈ args),
                    g.verbose + verbose_count args⟩)) ∧
    (has_unrecognised args = true → ∃ g2, check_opts g (argv0 :: args) = some (-1, g2)) := by
  constructor
  · intro hk hv
    unfold check_opts
    simp only [List.drop_succ_cons, List.drop_zero]
    rw [check_opts_loop_known args _ g 0 (by have := length_le_scan_size args; omega) hk,
      foldl_apply_option args g hv]
  · intro hb
    unfold check_opts
    simp only [List.drop_succ_cons, List.drop_zero]
    obtain ⟨r, g2, h1, _, h3, _⟩ := check_opts_loop_spec (scan_size ⟨args, []⟩ + 1) g
      ⟨args, []⟩ 0 (by omega)
    have hr : r = -1 := h3 (by simp [bad_state, hb])
    exact ⟨g2, by rw [h1, hr]⟩

/-- C8 (witness): `-d --verbose --version -v` gives 0 with `no_daemon`
set and `verbose` raised by 2; `-d -x` gives -1. -/
theorem check_opts_spec_witness :
    check_opts initial_globals ("irqd".toList :: [OPT_D, OPT_VERBOSE, OPT_VERSION, OPT_V])
      = some (0, ⟨initial_globals.irqd_prefix,
                  initial_globals.no_daemon
                    || decide (OPT_D ∈ [OPT_D, OPT_VERBOSE, OPT_VERSION, OPT_V]),
                  initial_globals.verbose
                    + verbose_count [OPT_D, OPT_VERBOSE, OPT_VERSION, OPT_V]⟩) ∧
    ∃ g2, check_opts initial_globals ("irqd".toList :: [OPT_D, "-x".toList]) = some (-1, g2) :=
  ⟨(check_opts_spec initial_globals "irqd".toList [OPT_D, OPT_VERBOSE, OPT_VERSION, OPT_V]).1
      (by decide) (by decide),
   (check_opts_spec initial_globals "irqd".toList [OPT_D, "-x".toList]).2 (by decide)⟩

/-! ## Theorems: `main` -/

/-- The hexadecimal text of a mask below `2^56` has at most 14 digits. -/
theorem fmt_x64_length (mask : Nat) (hm : mask < 2 ^ 56) : (fmt_x64 mask).length ≤ 14 := by
  unfold fmt_x64 Nat.toDigits
  have h64 : mask % 2 ^ 64 = mask := Nat.mod_eq_of_lt (by omega)
  rw [h64]
  exact Nat.toDigitsCore_length 16 (by decide) (mask + 1) mask 14 (by omega) (by decide)

/-- For a mask below `2^56` and an affinity file that can be opened,
`irq_set_affinity` issues one `write`, of the hexadecimal text of the mask
followed by a newline, with the length of that text. -/
theorem irq_set_affinity_small_mask (g : Globals) (w : World) (nwritten irq : Int)
    (mask : Nat) (f : File) (hf : w.fs.find (smp_affinity_path irq) = some f)
    (hw : f.writable = true) (hm : mask < 2 ^ 56) :
    writes_of (irq_set_affinity g w nwritten irq mask).2.trace
      = writes_of w.trace ++ [Syscall.sys_write (smp_affinity_path irq)
          (fmt_x64 mask ++ [NL]) ((fmt_x64 mask).length + 1)] := by
  have hl := fmt_x64_length mask hm
  rw [irq_set_affinity_opened g w nwritten irq mask f hf hw]
  have h1 : List.take (16 - 1) (fmt_x64 mask ++ [NL]) = fmt_x64 mask ++ [NL] :=
    List.take_of_length_le (by simp; omega)
  have h2 : List.take ((fmt_x64 mask).length + 1) (fmt_x64 mask ++ [NL] ++ [NUL])
      = fmt_x64 mask ++ [NL] := by
    have := take_text (fmt_x64 mask ++ [NL]) [NUL]
    simpa using this
  simp only [sys_write, snprintf, h1, List.length_append, List.length_singleton, h2,
    writes_of, OfNat.ofNat_ne_zero, if_false]
  simp

/-- Sample: mask `0xff00` on interrupt 17. -/
theorem irq_set_affinity_small_mask_witness :
    writes_of (irq_set_affinity initial_globals (world17 [] true) 5 17 0xff00).2.trace
      = writes_of (world17 [] true).trace ++ [Syscall.sys_write (smp_affinity_path 17)
          (fmt_x64 0xff00 ++ [NL]) ((fmt_x64 0xff00).length + 1)] :=
  irq_set_affinity_small_mask initial_globals (world17 [] true) 5 17 0xff00 ⟨[], true⟩
    (by decide) rfl (by decide)

/-- Whenever the PID file exists, is writable and `fdopen` succeeds,
`write_pid` returns 0 and issues a `write` of the pid on it: a PID file that
is present does not stop it. -/
theorem write_pid_file_present (k : Kernel) (w : World) (f : File)
    (hf : w.fs.find pid_path = some f) (hw : f.writable = true) (ho : k.fdopen_ok = true) :
    (write_pid k w).1 = 0 ∧
    writes_of (write_pid k w).2.trace
      = writes_of w.trace ++ [Syscall.sys_write pid_path (fmt_u k.pid ++ [NL])
          ((fmt_u k.pid).length + 1)] := by
  simp [write_pid, open_rdwr_creat, hf, hw, ho, sys_write, writes_of]

/-- Sample: process 456 and the PID file left by another instance. -/
theorem write_pid_file_present_witness :
    (write_pid kernel456 world_pid).1 = 0 ∧
    writes_of (write_pid kernel456 world_pid).2.trace
      = writes_of world_pid.trace ++ [Syscall.sys_write pid_path (fmt_u kernel456.pid ++ [NL])
          ((fmt_u kernel456.pid).length + 1)] :=
  write_pid_file_present kernel456 world_pid ⟨"123\n".toList, true⟩ (by decide) rfl rfl

/-- The loop of `check_opts` ends: on every argument list `check_opts`
returns 0 or -1 and leaves `irqd_prefix` as it was. -/
theorem check_opts_returns (g : Globals) (argv : List (List Char)) :
    ∃ r g2, check_opts g argv = some (r, g2) ∧ (r = 0 ∨ r = -1) ∧
      g2.irqd_prefix = g.irqd_prefix := by
  obtain ⟨r, g2, h1, h2, _, h4⟩ := check_opts_loop_spec (scan_size ⟨argv.drop 1, []⟩ + 1) g
    ⟨argv.drop 1, []⟩ 0 (by omega)
  exact ⟨r, g2, h1, h2, h4⟩

/-- In daemon mode the parent of the fork leaves `main` inside `daemonize`
with status 0: `write_pid` is not called in that process, whatever the
state of the PID file. -/
theorem main_daemon_parent (k : Kernel) (w : World) (argv : List (List Char)) (g : Globals)
    (hco : check_opts initial_globals argv = some (0, g)) (hnd : g.no_daemon = false)
    (he : k.euid = 0) (hn : k.ncpus ≠ 1) (hf : k.fork = fork_result.parent) :
    ∃ run, main k w argv = some run ∧ run.status = 0 ∧ run.daemonized = true ∧
      run.write_pid_ret = none ∧ run.dispatched = false ∧ run.w = w := by
  simp [main, hco, hnd, he, hn, hf, daemonize]

/-- Sample: the parent process of `irqd` started without arguments. -/
theorem main_daemon_parent_witness :
    ∃ run, main { kernel456 with fork := fork_result.parent } world_pid ["irqd".toList]
        = some run ∧ run.status = 0 ∧ run.daemonized = true ∧
      run.write_pid_ret = none ∧ run.dispatched = false ∧ run.w = world_pid :=
  main_daemon_parent { kernel456 with fork := fork_result.parent } world_pid ["irqd".toList]
    ⟨[], false, 0⟩ (by decide) rfl rfl (by decide) rfl

/-- Which elements count as unrecognised options: an unknown letter alone
or inside a cluster, an unknown long name, an ambiguous abbreviation and a
value given to `--verbose` do; abbreviations that single out one entry,
clusters of known letters and plain words do not. -/
theorem bad_element_samples :
    bad_element "-x".toList = true ∧ bad_element "-dvx".toList = true ∧
    bad_element "--foo".toList = true ∧ bad_element "--ver".toList = true ∧
    bad_element "--verbose=1".toList = true ∧
    bad_element "--verb".toList = false ∧ bad_element "--vers".toList = false ∧
    bad_element "-dv".toList = false ∧ bad_element "foo".toList = false ∧
    bad_element "-".toList = false := by
  decide

/-- An argument list in which, before any `--`, an element `-...` holds a
letter other than `d` and `v` has an unrecognised option; `check_opts`
returns -1 on it. -/
theorem check_opts_unknown_letter (g : Globals) (argv0 : List Char)
    (pre post : List (List Char)) (c0 x : Char) (cs : List Char)
    (hpre : ['-', '-'] ∉ pre) (hc0 : c0 ≠ '-') (hx : x ∈ c0 :: cs)
    (hxd : x ≠ 'd') (hxv : x ≠ 'v') :
    has_unrecognised (pre ++ ('-' :: c0 :: cs) :: post) = true ∧
    ∃ g2, check_opts g (argv0 :: (pre ++ ('-' :: c0 :: cs) :: post)) = some (-1, g2) := by
  have hq : short_option "dv".toList x = QMARK := by
    unfold short_option
    rw [if_neg]
    intro h
    have : x = 'd' ∨ x = 'v' := by simpa using h.1
    rcases this with e | e
    · exact hxd e
    · exact hxv e
  have hbad : bad_element ('-' :: c0 :: cs) = true := by
    rw [bad_element_short c0 cs hc0]
    unfold bad_short
    rw [List.any_eq_true]
    exact ⟨x, hx, by rw [hq]; rfl⟩
  have hne : ('-' :: c0 :: cs) ≠ ['-', '-'] := by
    intro e
    simp at e
    exact hc0 e.1
  have hu : has_unrecognised (pre ++ ('-' :: c0 :: cs) :: post) = true := by
    induction pre with
    | nil => simp [has_unrecognised, hne, hbad]
    | cons p ps ih =>
      have hp : p ≠ ['-', '-'] := fun e => hpre (by simp [e])
      have hps : ['-', '-'] ∉ ps := fun e => hpre (by simp [e])
      simp [has_unrecognised, hp, ih hps]
  obtain ⟨r, g2, h1, _, h3, _⟩ := check_opts_loop_spec
    (scan_size ⟨pre ++ ('-' :: c0 :: cs) :: post, []⟩ + 1) g
    ⟨pre ++ ('-' :: c0 :: cs) :: post, []⟩ 0 (by omega)
  have hr : r = -1 := h3 (by simp [bad_state, hu])
  exact ⟨hu, g2, by rw [← hr]; exact h1⟩

/-- Sample: `irqd foo -dq bar`. -/
theorem check_opts_unknown_letter_witness :
    has_unrecognised (["foo".toList] ++ ('-' :: 'd' :: ['q']) :: ["bar".toList]) = true ∧
    ∃ g2, check_opts initial_globals
        ("irqd".toList :: (["foo".toList] ++ ('-' :: 'd' :: ['q']) :: ["bar".toList]))
      = some (-1, g2) :=
  check_opts_unknown_letter initial_globals "irqd".toList ["foo".toList] ["bar".toList]
    'd' 'q' ['q'] (by decide) (by decide) (by decide) (by decide) (by decide)

end Irqd
